import Mathlib

/-!
# Verification of the `project_renewal` consolidation pipeline

Shallow embedding of `src/project_renewal/consolidate.py`:
rows are ordered association lists of string cells (Python dicts of strings),
tables pair a column list with a row list (pandas `DataFrame` of `dtype=str`
cells, `keep_default_na=False`).  Fallible readers/builders return `Except`
with the sorted list of missing column names as the error payload, matching
`raise ValueError(f"... missing columns: {sorted(missing)}")`.
-/

namespace ProjectRenewal

/-- Python `str.strip()` on the cell alphabet used here: drop leading and
trailing whitespace characters. -/
def strip (s : String) : String :=
  ⟨((s.data.dropWhile Char.isWhitespace).reverse.dropWhile Char.isWhitespace).reverse⟩

/-- Python `str.lower()`: lower-case every character. -/
def lower (s : String) : String :=
  ⟨s.data.map Char.toLower⟩

/-- The normalization `str(x).strip().lower()` applied throughout the
filtering rules. -/
def norm (s : String) : String := lower (strip s)

/-- A row: an ordered mapping from column name to string cell
(a Python `dict[str, str]`). -/
abbrev Row := List (String × String)

/-- A table: ordered columns plus ordered rows (a pandas `DataFrame` with
all-string cells). -/
structure Table where
  columns : List String
  rows : List Row
deriving Repr, DecidableEq

/-- `item.get(k, "")` / `row[k]` on string cells: the value stored under the
first occurrence of key `k`, defaulting to `""`. -/
def rget (r : Row) (k : String) : String :=
  match r with
  | [] => ""
  | (k', v) :: t => if k' = k then v else rget t k

/-- `k in item`: whether the row has a cell under key `k`. -/
def rhas (r : Row) (k : String) : Bool :=
  match r with
  | [] => false
  | (k', _) :: t => k' = k || rhas t k

/-- `item[k] = v` on a Python dict: overwrite in place if the key exists,
append at the end otherwise. -/
def rset : Row → String → String → Row
  | [], k, v => [(k, v)]
  | (k', v') :: t, k, v => if k' = k then (k, v) :: t else (k', v') :: rset t k v

/-- `item.setdefault(k, v)`: keep the existing cell, else append `(k, v)`. -/
def rsetdefault (r : Row) (k v : String) : Row :=
  if rhas r k then r else r ++ [(k, v)]

/-! ## Filtering rules (license.csv), `consolidate.py` lines 14-18 -/

def TIERS_ALLOWED : List String := ["enterprise", "enterprise ai", "inspect pro", "starter+"]

def PRODUCT_ALLOWED : String := "inspect"

def BU_EXCLUDE : String := "proceq hq"

def BU_MISSING_MARKERS : List String := ["", "#n/a", "n/a", "na", "none", "null"]

/-! ## Missing-column errors

Each builder computes `missing = required_cols - set(df.columns)` and raises
`ValueError(f"... missing columns: {sorted(missing)}")`.  We model the error
payload as `sorted(missing)`: the sorted list of required column names absent
from the table. -/

/-- Code-point lexicographic order on character lists, as Python compares
strings. -/
def charListLe : List Char → List Char → Bool
  | [], _ => true
  | _ :: _, [] => false
  | a :: as, b :: bs =>
    if a.toNat < b.toNat then true
    else if b.toNat < a.toNat then false
    else charListLe as bs

/-- Code-point lexicographic order on strings, as Python compares strings. -/
def strLe (a b : String) : Bool := charListLe a.data b.data

/-- Insert a string into an already sorted list (ascending). -/
def insertSorted (s : String) : List String → List String
  | [] => [s]
  | t :: ts => if strLe s t then s :: t :: ts else t :: insertSorted s ts

/-- Python `sorted` on a list of strings (insertion sort, ascending). -/
def sortStrings : List String → List String
  | [] => []
  | s :: ss => insertSorted s (sortStrings ss)

/-- `sorted(required_cols - set(df.columns))`: the sorted missing-column
list. -/
def missingCols (required cols : List String) : List String :=
  sortStrings (required.filter (fun c => !(cols.contains c)))

/-! ## `filter_license_rows`, lines 107-129 -/

def requiredLicenseCols : List String := ["Contract ID", "Product", "Tier", "BU"]

/-- The boolean mask of `filter_license_rows` (lines 119-128), applied to one
row. -/
def licenseMask (r : Row) : Bool :=
  (norm (rget r "Product") == PRODUCT_ALLOWED)
    && TIERS_ALLOWED.contains (norm (rget r "Tier"))
    && !(norm (rget r "BU") == BU_EXCLUDE)
    && !(BU_MISSING_MARKERS.contains (norm (rget r "BU")))

/-- `filter_license_rows` (lines 107-129): check required columns, then keep
the rows satisfying the mask, in order. -/
def filter_license_rows (t : Table) : Except (List String) Table :=
  let missing := missingCols requiredLicenseCols t.columns
  if missing = [] then .ok ⟨t.columns, t.rows.filter licenseMask⟩
  else .error missing

/-- The row predicate exactly as the spec words it (claim C1): trimmed
lower-cased Product equals "inspect", trimmed lower-cased Tier belongs to the
allowed set, and trimmed lower-cased BU is neither "proceq hq" nor a
missing-value marker. -/
def specLicensePred (r : Row) : Prop :=
  norm (rget r "Product") = "inspect" ∧
  norm (rget r "Tier") ∈ (["enterprise", "enterprise ai", "inspect pro", "starter+"] : List String) ∧
  norm (rget r "BU") ≠ "proceq hq" ∧
  norm (rget r "BU") ∉ (["", "#n/a", "n/a", "na", "none", "null"] : List String)

instance (r : Row) : Decidable (specLicensePred r) := by
  unfold specLicensePred; infer_instance

theorem licenseMask_iff (r : Row) : licenseMask r = true ↔ specLicensePred r := by
  simp [licenseMask, specLicensePred, PRODUCT_ALLOWED, BU_EXCLUDE, TIERS_ALLOWED,
    BU_MISSING_MARKERS, and_assoc]

theorem missingCols_eq_nil (required cols : List String)
    (h : ∀ c ∈ required, c ∈ cols) : missingCols required cols = [] := by
  unfold missingCols
  have : required.filter (fun c => !(cols.contains c)) = [] := by
    simp only [List.filter_eq_nil_iff]
    intro a ha
    simp [List.contains_eq_any_beq, List.any_eq_true, h a ha]
  rw [this]; rfl

theorem licenseMask_eq_decide (r : Row) :
    licenseMask r = decide (specLicensePred r) := by
  by_cases hp : specLicensePred r
  · simp [hp, (licenseMask_iff r).mpr hp]
  · have : ¬ licenseMask r = true := fun hc => hp ((licenseMask_iff r).mp hc)
    simp [hp, Bool.eq_false_iff.mpr this]

/-- Sample license table used by witnesses: first row passes the filter, the
second fails it (wrong product). -/
def licSample : Table :=
  ⟨["Contract ID", "Product", "Tier", "BU"],
   [[("Contract ID", "contract-001"), ("Product", " Inspect "), ("Tier", "Enterprise"), ("BU", "ACME")],
    [("Contract ID", "contract-006"), ("Product", "GPR Live"), ("Tier", "Enterprise"), ("BU", "ACME")]]⟩

/-- C1: on a license table containing the four governing columns,
`filter_license_rows` returns exactly the rows, in their original order, whose
trimmed lower-cased Product is "inspect", whose trimmed lower-cased Tier is in
the allowed tier set, and whose trimmed lower-cased BU is neither "proceq hq"
nor a missing-value marker. -/
theorem C1_filter_license_rows (t : Table)
    (h : ∀ c ∈ requiredLicenseCols, c ∈ t.columns) :
    filter_license_rows t =
      .ok ⟨t.columns, t.rows.filter (fun r => decide (specLicensePred r))⟩ := by
  unfold filter_license_rows
  rw [missingCols_eq_nil _ _ h]
  simp only [if_pos rfl, if_true]
  rw [List.filter_congr (fun r _ => licenseMask_eq_decide r)]

/-- Witness for C1 at a concrete two-row table: the filter keeps exactly the
first row. -/
theorem C1_filter_license_rows_witness :
    (∀ c ∈ requiredLicenseCols, c ∈ licSample.columns) ∧
    filter_license_rows licSample =
      .ok ⟨licSample.columns, [licSample.rows.head!]⟩ := by
  refine ⟨by decide, ?_⟩
  rw [C1_filter_license_rows licSample (by decide)]
  rfl

/-! ## `build_finance_lookup`, lines 173-199 -/

def requiredFinanceCols : List String := ["Contract ID", "Customer name"]

/-- `cid = str(row["Contract ID"]).strip()` of a finance row (line 188). -/
def finCid (r : Row) : String := strip (rget r "Contract ID")

/-- `cname = str(row.get("Customer name", "")).strip()` of a finance row
(line 189). -/
def finName (r : Row) : String := strip (rget r "Customer name")

/-- One iteration of the `build_finance_lookup` loop (lines 187-197): trim the
ID and skip if empty; skip if the lookup already holds a non-sentinel value;
otherwise store the trimmed name if non-empty, else the existing entry or the
sentinel "#NA". -/
def financeStep (m : String → Option String) (row : Row) : String → Option String :=
  if finCid row = "" then m
  else if (m (finCid row)).isSome ∧ m (finCid row) ≠ some "#NA" then m
  else fun k =>
    if k = finCid row then
      some (if finName row ≠ "" then finName row else (m (finCid row)).getD "#NA")
    else m k

/-- The loop of `build_finance_lookup` over all rows, starting from the empty
dict. -/
def financeFold (rows : List Row) : String → Option String :=
  rows.foldl financeStep (fun _ => none)

/-- `build_finance_lookup` (lines 173-199): check required columns, then run
the loop. -/
def build_finance_lookup (t : Table) : Except (List String) (String → Option String) :=
  let missing := missingCols requiredFinanceCols t.columns
  if missing = [] then .ok (financeFold t.rows) else .error missing

theorem financeStep_eq_of_emptyId (m : String → Option String) (row : Row)
    (h0 : finCid row = "") : financeStep m row = m := by
  simp only [financeStep]
  rw [if_pos h0]

theorem financeStep_eq_of_skip (m : String → Option String) (row : Row)
    (h0 : finCid row ≠ "")
    (h1 : (m (finCid row)).isSome ∧ m (finCid row) ≠ some "#NA") :
    financeStep m row = m := by
  simp only [financeStep]
  rw [if_neg h0, if_pos h1]

theorem financeStep_eq_of_store (m : String → Option String) (row : Row)
    (h0 : finCid row ≠ "")
    (h1 : ¬ ((m (finCid row)).isSome ∧ m (finCid row) ≠ some "#NA")) :
    financeStep m row = fun k =>
      if k = finCid row then
        some (if finName row ≠ "" then finName row else (m (finCid row)).getD "#NA")
      else m k := by
  simp only [financeStep]
  rw [if_neg h0, if_neg h1]

theorem financeStep_other (m : String → Option String) (row : Row) (id : String)
    (h : finCid row ≠ id) : financeStep m row id = m id := by
  by_cases h0 : finCid row = ""
  · rw [financeStep_eq_of_emptyId m row h0]
  · by_cases h1 : (m (finCid row)).isSome ∧ m (finCid row) ≠ some "#NA"
    · rw [financeStep_eq_of_skip m row h0 h1]
    · rw [financeStep_eq_of_store m row h0 h1]
      exact if_neg (fun he => h he.symm)

theorem financeStep_preserve (m : String → Option String) (row : Row) (id v : String)
    (hv : m id = some v) (hNA : v ≠ "#NA") : financeStep m row id = some v := by
  by_cases hc : finCid row = id
  · by_cases h0 : finCid row = ""
    · rw [financeStep_eq_of_emptyId m row h0]; exact hv
    · have h1 : (m (finCid row)).isSome ∧ m (finCid row) ≠ some "#NA" := by
        rw [hc, hv]
        exact ⟨rfl, by simpa using hNA⟩
      rw [financeStep_eq_of_skip m row h0 h1]; exact hv
  · rw [financeStep_other m row id hc]; exact hv

theorem financeFold_preserve (rows : List Row) (m : String → Option String) (id v : String)
    (hv : m id = some v) (hNA : v ≠ "#NA") : rows.foldl financeStep m id = some v := by
  induction rows generalizing m with
  | nil => exact hv
  | cons r rs ih => exact ih _ (financeStep_preserve m r id v hv hNA)

theorem financeStep_supplies (m : String → Option String) (row : Row)
    (h1 : finCid row ≠ "") (h2 : finName row ≠ "") (h3 : finName row ≠ "#NA") :
    ∃ v, financeStep m row (finCid row) = some v ∧ v ≠ "#NA" := by
  by_cases hskip : (m (finCid row)).isSome ∧ m (finCid row) ≠ some "#NA"
  · obtain ⟨hs, hne⟩ := hskip
    obtain ⟨v, hv⟩ := Option.isSome_iff_exists.mp hs
    refine ⟨v, ?_, fun he => hne (by rw [hv, he])⟩
    rw [financeStep_eq_of_skip m row h1 ⟨hs, hne⟩]
    exact hv
  · refine ⟨finName row, ?_, h3⟩
    rw [financeStep_eq_of_store m row h1 hskip]
    simp [h2]

theorem financeStep_sets_sentinel (m : String → Option String) (row : Row) (id : String)
    (hc : finCid row = id) (hid : id ≠ "") (hn : finName row = "")
    (hm : m id = none ∨ m id = some "#NA") : financeStep m row id = some "#NA" := by
  have h0 : finCid row ≠ "" := by rw [hc]; exact hid
  have h1 : ¬ ((m (finCid row)).isSome ∧ m (finCid row) ≠ some "#NA") := by
    rw [hc]
    rcases hm with h | h <;> simp [h]
  rw [financeStep_eq_of_store m row h0 h1, hc]
  simp only [if_pos rfl, hn]
  rcases hm with h | h <;> simp [hc, h]

theorem financeFold_sentinel_aux (rows : List Row) (id : String) :
    ∀ (m : String → Option String),
    (m id = none ∨ m id = some "#NA") →
    (∀ r ∈ rows, finCid r = id → finName r = "") →
    (((∃ r ∈ rows, finCid r = id) ∧ id ≠ "") ∨ m id = some "#NA") →
    rows.foldl financeStep m id = some "#NA" := by
  induction rows with
  | nil =>
    intro m _ _ hstart
    rcases hstart with ⟨⟨r, hr, _⟩, _⟩ | h
    · exact absurd hr (List.not_mem_nil r)
    · exact h
  | cons r rs ih =>
    intro m hm hall hstart
    by_cases hc : finCid r = id
    · by_cases hid : id = ""
      · have hstep : financeStep m r = m :=
          financeStep_eq_of_emptyId m r (by rw [hc]; exact hid)
        rcases hstart with ⟨_, hid'⟩ | hNA
        · exact absurd hid hid'
        · exact ih _ (by rw [hstep]; exact hm)
            (fun x hx => hall x (List.mem_cons_of_mem r hx))
            (Or.inr (by rw [hstep]; exact hNA))
      · have hstep : financeStep m r id = some "#NA" :=
          financeStep_sets_sentinel m r id hc hid (hall r (List.mem_cons_self r rs) hc) hm
        exact ih _ (Or.inr hstep) (fun x hx => hall x (List.mem_cons_of_mem r hx)) (Or.inr hstep)
    · have hstep : financeStep m r id = m id := financeStep_other m r id hc
      refine ih _ (by rw [hstep]; exact hm) (fun x hx => hall x (List.mem_cons_of_mem r hx)) ?_
      rcases hstart with ⟨⟨x, hx, hxid⟩, hid⟩ | hNA
      · rcases List.mem_cons.mp hx with he | hx'
        · exact absurd (he ▸ hxid) hc
        · exact Or.inl ⟨⟨x, hx', hxid⟩, hid⟩
      · exact Or.inr (by rw [hstep]; exact hNA)

/-- First finance row of the C2 counterexample: its trimmed customer name is
the non-empty string "#NA". -/
def finRowNA : Row := [("Contract ID", "C1"), ("Customer name", "#NA")]

/-- Second finance row of the C2 counterexample: same ID, name "Bob". -/
def finRowBob : Row := [("Contract ID", "C1"), ("Customer name", "Bob")]

/-- C2 counterexample: the first row supplies the non-empty trimmed customer
name "#NA" for ID "C1" and the lookup stores "#NA" after it, yet the later row
for the same ID changes the stored value to "Bob".  So a later row CAN change
the value stored for an ID that already received a non-empty name. -/
theorem C2_counterexample :
    finName finRowNA ≠ "" ∧
    financeFold [finRowNA] "C1" = some "#NA" ∧
    financeFold [finRowNA, finRowBob] "C1" = some "Bob" ∧
    some "Bob" ≠ some "#NA" := by
  refine ⟨by decide, by decide, by decide, by decide⟩

/-- C2 (amended): once a row supplies a non-empty trimmed customer name that
is not itself the sentinel "#NA", the value stored for its ID right after that
row is present and non-sentinel, and no later row changes it; and an ID whose
rows all have empty trimmed names maps to the sentinel "#NA". -/
theorem C2_build_finance_lookup (t : Table) (m : String → Option String)
    (hok : build_finance_lookup t = .ok m) :
    (∀ pre r post, t.rows = pre ++ r :: post →
      finCid r ≠ "" → finName r ≠ "" → finName r ≠ "#NA" →
      (financeFold (pre ++ [r]) (finCid r)).isSome ∧
      financeFold (pre ++ [r]) (finCid r) ≠ some "#NA" ∧
      m (finCid r) = financeFold (pre ++ [r]) (finCid r)) ∧
    (∀ id, id ≠ "" →
      (∃ r ∈ t.rows, finCid r = id) →
      (∀ r ∈ t.rows, finCid r = id → finName r = "") →
      m id = some "#NA") := by
  have hm : m = financeFold t.rows := by
    unfold build_finance_lookup at hok
    by_cases hmiss : missingCols requiredFinanceCols t.columns = []
    · rw [if_pos hmiss] at hok
      injection hok with h
      exact h.symm
    · rw [if_neg hmiss] at hok
      exact absurd hok (by simp)
  subst hm
  constructor
  · intro pre r post hrows h1 h2 h3
    obtain ⟨v, hv, hvNA⟩ := financeStep_supplies (financeFold pre) r h1 h2 h3
    have hafter : financeFold (pre ++ [r]) (finCid r) = some v := by
      unfold financeFold
      rw [List.foldl_append]
      exact hv
    refine ⟨by rw [hafter]; rfl, by rw [hafter]; simpa using hvNA, ?_⟩
    rw [hrows, hafter]
    have : pre ++ r :: post = (pre ++ [r]) ++ post := by simp
    rw [this]
    unfold financeFold
    rw [List.foldl_append]
    exact financeFold_preserve post _ (finCid r) v hafter hvNA
  · intro id hid hex hall
    exact financeFold_sentinel_aux t.rows id _ (Or.inl rfl) hall (Or.inl ⟨hex, hid⟩)

/-- Sample finance table used by the C2 witness. -/
def finSample : Table :=
  ⟨["Contract ID", "Customer name"],
   [[("Contract ID", "C1"), ("Customer name", "Alice")],
    [("Contract ID", "C1"), ("Customer name", "Zoe")],
    [("Contract ID", "C2"), ("Customer name", "")]]⟩

/-- Witness for C2 (amended) at a concrete table: "C1" keeps its first name
"Alice" despite the later row "Zoe", and the all-empty ID "C2" gets the
sentinel. -/
theorem C2_build_finance_lookup_witness :
    financeFold finSample.rows "C1" = some "Alice" ∧
    financeFold finSample.rows "C2" = some "#NA" := by
  have h := C2_build_finance_lookup finSample (financeFold finSample.rows) rfl
  constructor
  · have h1 := h.1 [] finSample.rows.head! finSample.rows.tail rfl
      (by decide) (by decide) (by decide)
    have key : financeFold finSample.rows "C1" =
        financeFold ([] ++ [finSample.rows.head!]) "C1" := h1.2.2
    rw [key]
    decide
  · exact h.2 "C2" (by decide) ⟨finSample.rows.getLast!, by decide, by decide⟩ (by decide)

/-! ## `build_contract_lookup`, lines 132-170 -/

/-- The seven contract attributes merged into each license item
(lines 154-162, re-listed at lines 285-293). -/
def contractFields : List String :=
  ["Country Sold To", "User Type", "Remarks", "BP", "First Expiration Date",
   "License Count", "Language"]

def requiredContractCols : List String := "ID" :: contractFields

/-- `cid = str(row["ID"]).strip()` of a contract row (line 166). -/
def conCid (r : Row) : String := strip (rget r "ID")

/-- One iteration of the `build_contract_lookup` loop (lines 165-169): skip
empty or already-present IDs, else store the seven trimmed attribute cells. -/
def contractStep (m : String → Option Row) (row : Row) : String → Option Row :=
  if conCid row = "" ∨ (m (conCid row)).isSome then m
  else fun k =>
    if k = conCid row then some (contractFields.map (fun f => (f, strip (rget row f))))
    else m k

/-- The loop of `build_contract_lookup` over all rows, from the empty dict. -/
def contractFold (rows : List Row) : String → Option Row :=
  rows.foldl contractStep (fun _ => none)

/-- `build_contract_lookup` (lines 132-170). -/
def build_contract_lookup (t : Table) : Except (List String) (String → Option Row) :=
  let missing := missingCols requiredContractCols t.columns
  if missing = [] then .ok (contractFold t.rows) else .error missing

/-! ## The enrichment loop of `consolidate`, lines 295-315 -/

/-- Result of the enrichment loop: the enriched items and the two miss
counters. -/
structure EnrichResult where
  items : List Row
  missingContract : Nat
  missingFinance : Nat
deriving Repr, DecidableEq

/-- The body of `for item in items:` (lines 299-315) applied to one license
item: merge contract attributes (or `setdefault` blanks on miss), then attach
the customer name (sentinel "#NA" on miss).  Returns the enriched row plus the
contract-miss and finance-miss flags. -/
def enrichItem (cl : String → Option Row) (fl : String → Option String) (item : Row) :
    Row × Bool × Bool :=
  let cid := strip (rget item "Contract ID")
  let upd : Row × Bool :=
    match cl cid with
    | none => (contractFields.foldl (fun r f => rsetdefault r f "") item, true)
    | some cinfo => (cinfo.foldl (fun r kv => rset r kv.1 kv.2) item, false)
  let customerName := (fl cid).getD "#NA"
  (rset upd.1 "Customer name" customerName, upd.2, customerName == "#NA")

/-- The enrichment loop over all items, accumulating enriched rows in order
and the two counters (lines 295-315). -/
def enrich (cl : String → Option Row) (fl : String → Option String)
    (items : List Row) : EnrichResult :=
  items.foldl
    (fun acc item =>
      let r := enrichItem cl fl item
      ⟨acc.items ++ [r.1],
       acc.missingContract + (if r.2.1 then 1 else 0),
       acc.missingFinance + (if r.2.2 then 1 else 0)⟩)
    ⟨[], 0, 0⟩

theorem enrich_loop (cl : String → Option Row) (fl : String → Option String)
    (items : List Row) (acc : EnrichResult) :
    items.foldl
      (fun acc item =>
        let r := enrichItem cl fl item
        EnrichResult.mk (acc.items ++ [r.1])
          (acc.missingContract + (if r.2.1 then 1 else 0))
          (acc.missingFinance + (if r.2.2 then 1 else 0)))
      acc =
    ⟨acc.items ++ items.map (fun it => (enrichItem cl fl it).1),
     acc.missingContract + items.countP (fun it => (enrichItem cl fl it).2.1),
     acc.missingFinance + items.countP (fun it => (enrichItem cl fl it).2.2)⟩ := by
  induction items generalizing acc with
  | nil => simp
  | cons it its ih =>
    simp only [List.foldl_cons, List.map_cons, List.countP_cons, ih]
    congr 1
    · simp
    · by_cases h : (enrichItem cl fl it).2.1 = true <;> simp [h] <;> omega
    · by_cases h : (enrichItem cl fl it).2.2 = true <;> simp [h] <;> omega

theorem enrichItem_cmiss (cl : String → Option Row) (fl : String → Option String)
    (it : Row) :
    (enrichItem cl fl it).2.1 = (cl (strip (rget it "Contract ID"))).isNone := by
  cases h : cl (strip (rget it "Contract ID")) <;> simp [enrichItem, h]

theorem enrichItem_fmiss (cl : String → Option Row) (fl : String → Option String)
    (it : Row) :
    (enrichItem cl fl it).2.2 =
      decide (fl (strip (rget it "Contract ID")) = none ∨
              fl (strip (rget it "Contract ID")) = some "#NA") := by
  cases h : fl (strip (rget it "Contract ID")) with
  | none => simp [enrichItem, h]
  | some s =>
    simp only [enrichItem, h, Option.getD_some]
    by_cases hs : s = "#NA" <;> simp [hs]

/-- C3: the enrichment join emits exactly one enriched record per filtered
row, in order (the output is the elementwise image of the input, hence no row
is dropped or duplicated); the missing-contract counter counts the rows whose
trimmed Contract ID is absent from the contract lookup; and the
missing-finance counter counts the rows whose trimmed Contract ID is absent
from the finance lookup or mapped by it to the sentinel "#NA". -/
theorem C3_enrich_counts (cl : String → Option Row) (fl : String → Option String)
    (items : List Row) :
    (enrich cl fl items).items = items.map (fun it => (enrichItem cl fl it).1) ∧
    (enrich cl fl items).items.length = items.length ∧
    (enrich cl fl items).missingContract =
      items.countP (fun it => (cl (strip (rget it "Contract ID"))).isNone) ∧
    (enrich cl fl items).missingFinance =
      items.countP (fun it =>
        decide (fl (strip (rget it "Contract ID")) = none ∨
                fl (strip (rget it "Contract ID")) = some "#NA")) := by
  have h := enrich_loop cl fl items ⟨[], 0, 0⟩
  have he : enrich cl fl items =
      ⟨items.map (fun it => (enrichItem cl fl it).1),
       items.countP (fun it => (enrichItem cl fl it).2.1),
       items.countP (fun it => (enrichItem cl fl it).2.2)⟩ := by
    unfold enrich
    rw [h]
    simp
  rw [he]
  refine ⟨rfl, by simp, ?_, ?_⟩
  · exact List.countP_congr (fun it _ => by rw [enrichItem_cmiss])
  · exact List.countP_congr (fun it _ => by rw [enrichItem_fmiss])

/-! ## Row-update lemmas for the enrichment of one item -/

theorem rget_rset_self (r : Row) (k v : String) : rget (rset r k v) k = v := by
  induction r with
  | nil => simp [rset, rget]
  | cons kv t ih =>
    by_cases h : kv.1 = k
    · simp [rset, h, rget]
    · simp [rset, h, rget, ih]

theorem rget_rset_other (r : Row) (k v x : String) (h : x ≠ k) :
    rget (rset r k v) x = rget r x := by
  have hkx : ¬ k = x := fun he => h he.symm
  induction r with
  | nil => simp [rset, rget, hkx]
  | cons kv t ih =>
    by_cases hk : kv.1 = k
    · simp [rset, hk, rget, hkx]
    · simp [rset, hk, rget, ih]

theorem rhas_append (r s : Row) (x : String) :
    rhas (r ++ s) x = (rhas r x || rhas s x) := by
  induction r with
  | nil => simp [rhas]
  | cons kv t ih => by_cases h : kv.1 = x <;> simp [rhas, h, ih]

theorem rget_append (r s : Row) (x : String) :
    rget (r ++ s) x = if rhas r x then rget r x else rget s x := by
  induction r with
  | nil => simp [rhas, rget]
  | cons kv t ih => by_cases h : kv.1 = x <;> simp [rhas, rget, h, ih]

theorem rget_eq_empty_of_not_rhas (r : Row) (x : String) (h : rhas r x = false) :
    rget r x = "" := by
  induction r with
  | nil => rfl
  | cons kv t ih =>
    simp only [rhas, Bool.or_eq_false_iff, decide_eq_false_iff_not] at h
    simp [rget, h.1, ih h.2]

theorem rget_setdefault_fold (fs : List String) (item : Row) (x : String) :
    rget (fs.foldl (fun r f => rsetdefault r f "") item) x =
      if rhas item x then rget item x else (if x ∈ fs then "" else rget item x) := by
  induction fs generalizing item with
  | nil => by_cases h : rhas item x <;> simp [h]
  | cons f fs ih =>
    simp only [List.foldl_cons]
    rw [ih]
    unfold rsetdefault
    by_cases hf : rhas item f
    · rw [if_pos hf]
      by_cases hx : rhas item x
      · simp [hx]
      · have hxf : ¬ x = f := fun he => hx (by rw [he]; exact hf)
        simp [hx, List.mem_cons, hxf]
    · rw [if_neg hf]
      by_cases hx : rhas item x
      · have h1 : rhas (item ++ [(f, "")]) x = true := by rw [rhas_append]; simp [hx]
        rw [if_pos h1, if_pos hx, rget_append, if_pos hx]
      · by_cases hxf : x = f
        · subst hxf
          have h1 : rhas (item ++ [(x, "")]) x = true := by
            rw [rhas_append]; simp [rhas]
          rw [if_pos h1, if_neg hx, rget_append, if_neg hx]
          simp [rget, List.mem_cons]
        · have hfx : ¬ f = x := fun he => hxf he.symm
          have h1 : ¬ rhas (item ++ [(f, "")]) x = true := by
            rw [rhas_append]; simp [hx, rhas, hfx]
          have h2 : rget (item ++ [(f, "")]) x = rget item x := by
            rw [rget_append, if_neg hx]
            simp [rget, hfx, rget_eq_empty_of_not_rhas item x (by simpa using hx)]
          rw [if_neg h1, if_neg hx, h2]
          simp [List.mem_cons, hxf]

theorem rget_update_fold_not_mem (ps : List (String × String)) (item : Row) (x : String)
    (h : x ∉ ps.map Prod.fst) :
    rget (ps.foldl (fun r kv => rset r kv.1 kv.2) item) x = rget item x := by
  induction ps generalizing item with
  | nil => rfl
  | cons kv ps ih =>
    simp only [List.foldl_cons]
    have hx : x ∉ ps.map Prod.fst := fun hm => h (by simp [List.mem_cons]; right; simpa using hm)
    have hk : x ≠ kv.1 := fun he => h (by simp [he])
    rw [ih _ hx, rget_rset_other _ _ _ _ hk]

theorem rget_update_fold_mem (ps : List (String × String)) (item : Row) (x v : String)
    (hnd : (ps.map Prod.fst).Nodup) (hmem : (x, v) ∈ ps) :
    rget (ps.foldl (fun r kv => rset r kv.1 kv.2) item) x = v := by
  induction ps generalizing item with
  | nil => cases hmem
  | cons kv ps ih =>
    simp only [List.foldl_cons]
    rw [List.map_cons, List.nodup_cons] at hnd
    rcases List.mem_cons.mp hmem with he | hm
    · have hx : x ∉ ps.map Prod.fst := by
        have h1 := hnd.1
        rw [← he] at h1
        exact h1
      rw [rget_update_fold_not_mem ps _ x hx, ← he]
      exact rget_rset_self item x v
    · exact ih _ hnd.2 hm

theorem rget_map_fields (g : String → String) (fs : List String) (f : String) (hf : f ∈ fs) :
    rget (fs.map (fun c => (c, g c))) f = g f := by
  induction fs with
  | nil => cases hf
  | cons c cs ih =>
    by_cases h : c = f
    · simp [rget, h]
    · rcases List.mem_cons.mp hf with he | hm
      · exact absurd he.symm h
      · simp [rget, h, ih hm]

/-- Every value stored by the contract-lookup loop is the seven-field trimmed
attribute record of some contract row. -/
theorem contractStep_shape (m : String → Option Row) (row : Row)
    (hm : ∀ k c, m k = some c →
      ∃ r, c = contractFields.map (fun f => (f, strip (rget r f)))) :
    ∀ k c, contractStep m row k = some c →
      ∃ r, c = contractFields.map (fun f => (f, strip (rget r f))) := by
  intro k c hc
  unfold contractStep at hc
  by_cases hcond : conCid row = "" ∨ (m (conCid row)).isSome
  · rw [if_pos hcond] at hc
    exact hm k c hc
  · rw [if_neg hcond] at hc
    by_cases hk : k = conCid row
    · rw [if_pos hk] at hc
      exact ⟨row, (Option.some.injEq _ _).mp hc.symm⟩
    · rw [if_neg hk] at hc
      exact hm k c hc

theorem contractFold_shape (rows : List Row) (id : String) (cinfo : Row)
    (h : contractFold rows id = some cinfo) :
    ∃ r, cinfo = contractFields.map (fun f => (f, strip (rget r f))) := by
  have aux : ∀ (rs : List Row) (m : String → Option Row),
      (∀ k c, m k = some c →
        ∃ r, c = contractFields.map (fun f => (f, strip (rget r f)))) →
      ∀ k c, rs.foldl contractStep m k = some c →
        ∃ r, c = contractFields.map (fun f => (f, strip (rget r f))) := by
    intro rs
    induction rs with
    | nil => intro m hm; exact hm
    | cons row rs ih =>
      intro m hm
      exact ih _ (contractStep_shape m row hm)
  exact aux rows _ (fun k c hc => by cases hc) id cinfo h

theorem enrichItem_fst_of_some (cl : String → Option Row) (fl : String → Option String)
    (item cinfo : Row) (h : cl (strip (rget item "Contract ID")) = some cinfo) :
    (enrichItem cl fl item).1 =
      rset (cinfo.foldl (fun r kv => rset r kv.1 kv.2) item) "Customer name"
        ((fl (strip (rget item "Contract ID"))).getD "#NA") := by
  simp only [enrichItem, h]

theorem enrichItem_fst_of_none (cl : String → Option Row) (fl : String → Option String)
    (item : Row) (h : cl (strip (rget item "Contract ID")) = none) :
    (enrichItem cl fl item).1 =
      rset (contractFields.foldl (fun r f => rsetdefault r f "") item) "Customer name"
        ((fl (strip (rget item "Contract ID"))).getD "#NA") := by
  simp only [enrichItem, h]

/-- A concrete license item carrying a pre-existing "BP" cell, used to refute
C4 as stated. -/
def itemBP : Row := [("Contract ID", "X"), ("BP", "keep")]

/-- C4 counterexample: the contract lookup is empty, so the item misses; the
claim says every one of the seven contract fields is then the empty string on
the enriched record, but the pre-existing "BP" cell keeps its value "keep"
(`item.setdefault(f, "")` does not overwrite). -/
theorem C4_counterexample :
    contractFold [] (strip (rget itemBP "Contract ID")) = none ∧
    ("BP" : String) ∈ contractFields ∧
    rget (enrichItem (contractFold []) (fun _ => none) itemBP).1 "BP" = "keep" ∧
    ("keep" : String) ≠ "" := by
  exact ⟨rfl, by decide, by decide, by decide⟩

/-- C4 (amended): on a contract-lookup hit, all seven contract attributes are
copied onto the enriched record, overwriting any same-named license fields; on
a miss, each of the seven fields already present on the license row keeps its
value, and each absent one is set to the empty string. -/
theorem C4_enrich_contract_fields (ctbl : List Row) (fl : String → Option String)
    (item : Row) :
    (∀ cinfo, contractFold ctbl (strip (rget item "Contract ID")) = some cinfo →
      ∀ f ∈ contractFields,
        rget (enrichItem (contractFold ctbl) fl item).1 f = rget cinfo f) ∧
    (contractFold ctbl (strip (rget item "Contract ID")) = none →
      ∀ f ∈ contractFields,
        rget (enrichItem (contractFold ctbl) fl item).1 f =
          (if rhas item f then rget item f else "")) := by
  have hCNnot : ("Customer name" : String) ∉ contractFields := by decide
  constructor
  · intro cinfo hc f hf
    have hfCN : f ≠ "Customer name" := fun he => hCNnot (he ▸ hf)
    rw [enrichItem_fst_of_some _ _ _ _ hc, rget_rset_other _ _ _ _ hfCN]
    obtain ⟨r, hsh⟩ := contractFold_shape ctbl _ cinfo hc
    subst hsh
    have hnd : ((contractFields.map (fun f => (f, strip (rget r f)))).map Prod.fst).Nodup := by
      rw [List.map_map]
      exact (by decide : contractFields.Nodup)
    have hmem : (f, strip (rget r f)) ∈ contractFields.map (fun c => (c, strip (rget r c))) :=
      List.mem_map_of_mem _ hf
    rw [rget_update_fold_mem _ _ _ _ hnd hmem, rget_map_fields _ _ _ hf]
  · intro hc f hf
    have hfCN : f ≠ "Customer name" := fun he => hCNnot (he ▸ hf)
    rw [enrichItem_fst_of_none _ _ _ hc, rget_rset_other _ _ _ _ hfCN,
      rget_setdefault_fold]
    by_cases hx : rhas item f
    · simp [hx]
    · simp [hx, hf]

/-- A one-row contract table used by the C4 witness. -/
def ctblSample : List Row :=
  [[("ID", "X"), ("Country Sold To", " Singapore "), ("User Type", "End User"),
    ("Remarks", ""), ("BP", "B1"), ("First Expiration Date", "2026-01-01"),
    ("License Count", "5"), ("Language", "EN")]]

/-- Witness for C4 (amended): on a hit the license row's own "BP" value is
overwritten by the contract's (trimmed) value; on a miss a pre-existing field
keeps its value and an absent one becomes the empty string. -/
theorem C4_enrich_contract_fields_witness :
    rget (enrichItem (contractFold ctblSample) (fun _ => none) itemBP).1 "Country Sold To" = "Singapore" ∧
    rget (enrichItem (contractFold ctblSample) (fun _ => none) itemBP).1 "BP" = "B1" ∧
    rget (enrichItem (contractFold []) (fun _ => none) itemBP).1 "Remarks" = "" := by
  have h := C4_enrich_contract_fields ctblSample (fun _ => none) itemBP
  have hmiss := (C4_enrich_contract_fields [] (fun _ => none) itemBP).2 rfl "Remarks" (by decide)
  have hc : contractFold ctblSample (strip (rget itemBP "Contract ID")) =
      some [("Country Sold To", "Singapore"), ("User Type", "End User"), ("Remarks", ""),
            ("BP", "B1"), ("First Expiration Date", "2026-01-01"), ("License Count", "5"),
            ("Language", "EN")] := by decide
  refine ⟨?_, ?_, ?_⟩
  · rw [h.1 _ hc "Country Sold To" (by decide)]; decide
  · rw [h.1 _ hc "BP" (by decide)]; decide
  · rw [hmiss]; decide

/-! ## The sort step of `consolidate`, lines 321-327

`pd.to_datetime(..., errors="coerce")` is abstracted by a parser
`p : String → Option Int` returning the day number of a parsed date and
`none` on unparseable input. -/

/-- The sort key of a row: its parsed "Expiration" cell. -/
def expKey (p : String → Option Int) (r : Row) : Option Int := p (rget r "Expiration")

/-- `sort_values("_exp_sort", na_position="last")` (lines 321-327): rows with
parseable expirations sorted ascending by parsed date, followed by the rows
with unparseable expirations in their original order. -/
def sortByExpiration (p : String → Option Int) (rows : List Row) : List Row :=
  (rows.filter (fun r => (expKey p r).isSome)).mergeSort
      (fun a b => decide ((expKey p a).getD 0 ≤ (expKey p b).getD 0))
  ++ rows.filter (fun r => (expKey p r).isNone)

/-- The full sort step: applied only when an "Expiration" column exists
(line 321). -/
def sortStep (p : String → Option Int) (t : Table) : Table :=
  if "Expiration" ∈ t.columns then ⟨t.columns, sortByExpiration p t.rows⟩ else t

/-- The order the claim puts on sort keys: parseable dates ascend, and any
unparseable key sits above every key. -/
def optLe : Option Int → Option Int → Prop
  | _, none => True
  | none, some _ => False
  | some x, some y => x ≤ y

theorem filter_isNone_eq_filter_not_isSome (p : String → Option Int) (rows : List Row) :
    rows.filter (fun r => (expKey p r).isNone) =
      rows.filter (fun r => !(expKey p r).isSome) := by
  apply List.filter_congr
  intro r _
  cases expKey p r <;> rfl

/-- C5: the sorted output is a permutation of the input rows in which every
parseable-expiration row precedes every unparseable one, the parseable rows
appear in non-decreasing order of parsed date, and the unparseable rows keep
their relative input order. -/
theorem C5_sortByExpiration (p : String → Option Int) (rows : List Row) :
    (sortByExpiration p rows).Perm rows ∧
    (sortByExpiration p rows).Pairwise (fun a b => optLe (expKey p a) (expKey p b)) ∧
    (sortByExpiration p rows).filter (fun r => (expKey p r).isNone) =
      rows.filter (fun r => (expKey p r).isNone) := by
  have hmem_sorted : ∀ r ∈ (rows.filter (fun r => (expKey p r).isSome)).mergeSort
      (fun a b => decide ((expKey p a).getD 0 ≤ (expKey p b).getD 0)),
      (expKey p r).isSome := by
    intro r hr
    have := List.mem_mergeSort.mp hr
    exact (List.mem_filter.mp this).2
  refine ⟨?_, ?_, ?_⟩
  · unfold sortByExpiration
    have h1 := List.mergeSort_perm (rows.filter (fun r => (expKey p r).isSome))
      (fun a b => decide ((expKey p a).getD 0 ≤ (expKey p b).getD 0))
    have h2 := List.filter_append_perm (fun r => (expKey p r).isSome) rows
    rw [filter_isNone_eq_filter_not_isSome]
    exact (h1.append (List.Perm.refl _)).trans h2
  · unfold sortByExpiration
    rw [List.pairwise_append]
    refine ⟨?_, ?_, ?_⟩
    · have hsorted : ((rows.filter (fun r => (expKey p r).isSome)).mergeSort
          (fun a b => decide ((expKey p a).getD 0 ≤ (expKey p b).getD 0))).Pairwise
          (fun a b => decide ((expKey p a).getD 0 ≤ (expKey p b).getD 0) = true) :=
        by
        apply List.sorted_mergeSort
        · intro a b c hab hbc
          exact decide_eq_true (le_trans (of_decide_eq_true hab) (of_decide_eq_true hbc))
        · intro a b
          rcases Int.le_total ((expKey p a).getD 0) ((expKey p b).getD 0) with h | h <;>
            simp [h]
      refine hsorted.imp_of_mem ?_
      intro a b ha hb hab
      obtain ⟨x, hx⟩ := Option.isSome_iff_exists.mp (hmem_sorted a ha)
      obtain ⟨y, hy⟩ := Option.isSome_iff_exists.mp (hmem_sorted b hb)
      have := of_decide_eq_true hab
      rw [hx, hy] at this ⊢
      simpa [optLe] using by simpa [hx, hy] using this
    · apply List.pairwise_of_forall_mem_list
      intro a _ b hb
      have : (expKey p b).isNone := (List.mem_filter.mp hb).2
      rw [Option.isNone_iff_eq_none] at this
      rw [this]
      cases expKey p a <;> exact trivial
    · intro a _ b hb
      have : (expKey p b).isNone := (List.mem_filter.mp hb).2
      rw [Option.isNone_iff_eq_none] at this
      rw [this]
      cases expKey p a <;> exact trivial
  · unfold sortByExpiration
    rw [List.filter_append]
    have h1 : ((rows.filter (fun r => (expKey p r).isSome)).mergeSort
        (fun a b => decide ((expKey p a).getD 0 ≤ (expKey p b).getD 0))).filter
        (fun r => (expKey p r).isNone) = [] := by
      rw [List.filter_eq_nil_iff]
      intro a ha
      have := hmem_sorted a ha
      rw [Option.isSome_iff_ne_none] at this
      simp [this]
    have h2 : (rows.filter (fun r => (expKey p r).isNone)).filter
        (fun r => (expKey p r).isNone) = rows.filter (fun r => (expKey p r).isNone) := by
      rw [List.filter_eq_self]
      intro a ha
      exact (List.mem_filter.mp ha).2
    rw [h1, h2, List.nil_append]

/-! ## `highlight_expiring_rows`, lines 214-240 -/

/-- The two fill colors used by `highlight_expiring_rows`: `soon` is the
orange fill (0-30 days), `upcoming` the yellow fill (31-60 days). -/
inductive Band where
  | soon
  | upcoming
deriving Repr, DecidableEq

/-- The per-row classification of `highlight_expiring_rows` (lines 227-237):
parse the "Expiration" cell (`pd.to_datetime(..., errors="coerce")` plus
`normalize()`, abstracted by `p` returning day numbers), skip unparseable
rows, then band on `days_to_expiry = exp - today`.  `today` is
`pd.Timestamp.today().normalize()` as a day number. -/
def highlightBand (p : String → Option Int) (today : Int) (r : Row) : Option Band :=
  match p (rget r "Expiration") with
  | none => none
  | some d =>
    let days := d - today
    if 0 ≤ days ∧ days ≤ 30 then some .soon
    else if 31 ≤ days ∧ days ≤ 60 then some .upcoming
    else none

/-- C7: a record gets the band "soon" exactly when its "Expiration" parses to
a date 0 to 30 whole days from today, "upcoming" exactly when it parses to a
date 31 to 60 days from today, and no band exactly when it is unparseable or
the day difference is negative or above 60. -/
theorem C7_highlightBand (p : String → Option Int) (today : Int) (r : Row) :
    (highlightBand p today r = some .soon ↔
      ∃ d, p (rget r "Expiration") = some d ∧ 0 ≤ d - today ∧ d - today ≤ 30) ∧
    (highlightBand p today r = some .upcoming ↔
      ∃ d, p (rget r "Expiration") = some d ∧ 31 ≤ d - today ∧ d - today ≤ 60) ∧
    (highlightBand p today r = none ↔
      p (rget r "Expiration") = none ∨
      ∃ d, p (rget r "Expiration") = some d ∧ (d - today < 0 ∨ 60 < d - today)) := by
  cases hp : p (rget r "Expiration") with
  | none => simp [highlightBand, hp]
  | some d =>
    simp only [highlightBand, hp]
    by_cases h1 : 0 ≤ d - today ∧ d - today ≤ 30
    · rw [if_pos h1]
      refine ⟨⟨fun _ => ⟨d, rfl, h1⟩, fun _ => rfl⟩, ?_, ?_⟩
      · constructor
        · intro h; cases h
        · rintro ⟨d', hd', h31, h60⟩
          injection hd' with he
          omega
      · constructor
        · intro h; cases h
        · rintro (h | ⟨d', hd', hout⟩)
          · cases h
          · injection hd' with he
            omega
    · rw [if_neg h1]
      by_cases h2 : 31 ≤ d - today ∧ d - today ≤ 60
      · rw [if_pos h2]
        refine ⟨?_, ⟨fun _ => ⟨d, rfl, h2⟩, fun _ => rfl⟩, ?_⟩
        · constructor
          · intro h; cases h
          · rintro ⟨d', hd', h0, h30⟩
            injection hd' with he
            omega
        · constructor
          · intro h; cases h
          · rintro (h | ⟨d', hd', hout⟩)
            · cases h
            · injection hd' with he
              omega
      · rw [if_neg h2]
        refine ⟨?_, ?_, ?_⟩
        · constructor
          · intro h; cases h
          · rintro ⟨d', hd', h0, h30⟩
            injection hd' with he
            omega
        · constructor
          · intro h; cases h
          · rintro ⟨d', hd', h31, h60⟩
            injection hd' with he
            omega
        · exact ⟨fun _ => Or.inr ⟨d, rfl, by omega⟩, fun _ => rfl⟩

/-! ## `read_license_csv`, lines 74-104

The two `pd.read_csv` calls are abstracted by their results: `df1` is the
skip-first-line parse and `df2` the plain parse, both with already-trimmed
column names. -/

/-- `expected = {"Contract ID", "Product", "Tier"}` (line 92).  Note "BU" is
NOT part of this check. -/
def expectedLicenseReadCols : List String := ["Contract ID", "Product", "Tier"]

/-- `read_license_csv` (lines 74-104): keep the skip-first-line parse iff its
columns contain the expected set, else fall back to the plain parse. -/
def read_license_csv (df1 df2 : Table) : Table :=
  if expectedLicenseReadCols.all (fun c => df1.columns.contains c) then df1 else df2

/-- A skip-first-line parse whose columns lack "BU". -/
def dfSkip : Table := ⟨["Contract ID", "Product", "Tier"], []⟩

/-- A distinct plain parse. -/
def dfPlain : Table := ⟨["X"], [[("X", "1")]]⟩

/-- C8 counterexample: the skipped read is kept although its columns do not
include the full required set {Contract ID, Product, Tier, BU} — the code
checks only {Contract ID, Product, Tier} (line 92). -/
theorem C8_counterexample :
    read_license_csv dfSkip dfPlain = dfSkip ∧
    ("BU" : String) ∉ dfSkip.columns ∧
    dfSkip ≠ dfPlain := by
  refine ⟨by decide, by decide, by decide⟩

/-- C8 (amended): the skip-first-line read is kept iff its resulting columns
include {Contract ID, Product, Tier}; otherwise the file is re-read without
skipping.  ("BU" is not part of the check.) -/
theorem C8_read_license_csv (df1 df2 : Table) :
    ((∀ c ∈ expectedLicenseReadCols, c ∈ df1.columns) → read_license_csv df1 df2 = df1) ∧
    ((¬ ∀ c ∈ expectedLicenseReadCols, c ∈ df1.columns) → read_license_csv df1 df2 = df2) := by
  have hiff : (expectedLicenseReadCols.all (fun c => df1.columns.contains c) = true) ↔
      (∀ c ∈ expectedLicenseReadCols, c ∈ df1.columns) := by
    simp [List.all_eq_true, List.contains_eq_any_beq, List.any_eq_true]
  constructor
  · intro h
    unfold read_license_csv
    rw [if_pos (hiff.mpr h)]
  · intro h
    unfold read_license_csv
    rw [if_neg (fun hc => h (hiff.mp hc))]

/-- Witness for C8 (amended): `dfSkip` has the three expected columns and is
kept; `dfPlain` lacks them, so the fallback read is returned. -/
theorem C8_read_license_csv_witness :
    read_license_csv dfSkip dfPlain = dfSkip ∧
    read_license_csv dfPlain dfSkip = dfSkip := by
  exact ⟨(C8_read_license_csv dfSkip dfPlain).1 (by decide),
         (C8_read_license_csv dfPlain dfSkip).2 (by decide)⟩

/-! ## Missing-column behaviour of the three builders (claim C9) -/

theorem mem_insertSorted (s x : String) (l : List String) :
    x ∈ insertSorted s l ↔ x = s ∨ x ∈ l := by
  induction l with
  | nil => simp [insertSorted]
  | cons t ts ih =>
    unfold insertSorted
    by_cases h : strLe s t
    · rw [if_pos h]
      simp [List.mem_cons]
    · rw [if_neg h]
      simp [List.mem_cons, ih]
      tauto

theorem mem_sortStrings (x : String) (l : List String) :
    x ∈ sortStrings l ↔ x ∈ l := by
  induction l with
  | nil => simp [sortStrings]
  | cons s ss ih => simp [sortStrings, mem_insertSorted, ih]

theorem mem_missingCols (required cols : List String) (c : String) :
    c ∈ missingCols required cols ↔ c ∈ required ∧ c ∉ cols := by
  unfold missingCols
  rw [mem_sortStrings, List.mem_filter]
  simp [List.contains_eq_any_beq, List.any_eq_true]

theorem missingCols_ne_nil (required cols : List String)
    (h : ∃ c ∈ required, c ∉ cols) : missingCols required cols ≠ [] := by
  obtain ⟨c, hc, hnc⟩ := h
  exact List.ne_nil_of_mem ((mem_missingCols required cols c).mpr ⟨hc, hnc⟩)

/-- C9: license filtering, contract-lookup building and finance-lookup
building each fail with the sorted list of exactly the missing required
columns when any required column is absent, and each succeeds (no
missing-column failure) when all its required columns are present. -/
theorem C9_missing_columns (t : Table) :
    ((∃ c ∈ requiredLicenseCols, c ∉ t.columns) →
      filter_license_rows t = .error (missingCols requiredLicenseCols t.columns) ∧
      ∀ c, c ∈ missingCols requiredLicenseCols t.columns ↔
        (c ∈ requiredLicenseCols ∧ c ∉ t.columns)) ∧
    ((∀ c ∈ requiredLicenseCols, c ∈ t.columns) →
      ∃ out, filter_license_rows t = .ok out) ∧
    ((∃ c ∈ requiredContractCols, c ∉ t.columns) →
      build_contract_lookup t = .error (missingCols requiredContractCols t.columns) ∧
      ∀ c, c ∈ missingCols requiredContractCols t.columns ↔
        (c ∈ requiredContractCols ∧ c ∉ t.columns)) ∧
    ((∀ c ∈ requiredContractCols, c ∈ t.columns) →
      ∃ out, build_contract_lookup t = .ok out) ∧
    ((∃ c ∈ requiredFinanceCols, c ∉ t.columns) →
      build_finance_lookup t = .error (missingCols requiredFinanceCols t.columns) ∧
      ∀ c, c ∈ missingCols requiredFinanceCols t.columns ↔
        (c ∈ requiredFinanceCols ∧ c ∉ t.columns)) ∧
    ((∀ c ∈ requiredFinanceCols, c ∈ t.columns) →
      ∃ out, build_finance_lookup t = .ok out) := by
  refine ⟨?_, ?_, ?_, ?_, ?_, ?_⟩
  · intro h
    refine ⟨?_, fun c => mem_missingCols _ _ c⟩
    unfold filter_license_rows
    rw [if_neg (missingCols_ne_nil _ _ h)]
  · intro h
    unfold filter_license_rows
    rw [if_pos (missingCols_eq_nil _ _ h)]
    exact ⟨_, rfl⟩
  · intro h
    refine ⟨?_, fun c => mem_missingCols _ _ c⟩
    unfold build_contract_lookup
    rw [if_neg (missingCols_ne_nil _ _ h)]
  · intro h
    unfold build_contract_lookup
    rw [if_pos (missingCols_eq_nil _ _ h)]
    exact ⟨_, rfl⟩
  · intro h
    refine ⟨?_, fun c => mem_missingCols _ _ c⟩
    unfold build_finance_lookup
    rw [if_neg (missingCols_ne_nil _ _ h)]
  · intro h
    unfold build_finance_lookup
    rw [if_pos (missingCols_eq_nil _ _ h)]
    exact ⟨_, rfl⟩

/-- A table lacking most of the license columns. -/
def badCols : Table := ⟨["Product"], []⟩

/-- Witness for C9: a table with only a "Product" column makes the license
filter fail naming exactly the three missing columns (sorted), while the
finance builder succeeds on a table with both its required columns. -/
theorem C9_missing_columns_witness :
    filter_license_rows badCols = .error ["BU", "Contract ID", "Tier"] ∧
    (∃ out, build_finance_lookup finSample = .ok out) := by
  have h1 := (C9_missing_columns badCols).1 ⟨"BU", by decide, by decide⟩
  have h2 := (C9_missing_columns finSample).2.2.2.2.2 (by decide)
  refine ⟨?_, h2⟩
  rw [h1.1]
  have he : missingCols requiredLicenseCols badCols.columns
      = ["BU", "Contract ID", "Tier"] := by decide
  rw [he]

/-! ## Output assembly of `consolidate`, lines 317-336 -/

/-- Column inference of `pd.DataFrame(items)`: the union of the items' keys in
order of first appearance. -/
def dfColumns (items : List Row) : List String :=
  items.foldl
    (fun cols r => cols ++ (r.map Prod.fst).filter (fun k => !(cols.contains k))) []

/-- `out_df = pd.DataFrame(items)` (line 318). -/
def assembleTable (items : List Row) : Table :=
  ⟨dfColumns items, items⟩

/-- Lines 329-331: `if "Customer name" not in out_df.columns: out_df["Customer
name"] = "#NA"` — synthesize the column at the end, value "#NA" on every
row. -/
def addCustomerIfMissing (t : Table) : Table :=
  if "Customer name" ∈ t.columns then t
  else ⟨t.columns ++ ["Customer name"], t.rows.map (fun r => rset r "Customer name" "#NA")⟩

/-- Lines 333-336: `first_col` is "Contract ID" when present, else the first
column that is not "Customer name", else the head of the column list; the new
order is `[first_col, "Customer name"]` followed by the remaining columns in
their existing order. -/
def reorderCols (t : Table) : Table :=
  let cols := t.columns
  let firstCol :=
    if "Contract ID" ∈ cols then "Contract ID"
    else ((cols.find? (fun c => c ≠ "Customer name")).getD (cols.headD ""))
  ⟨firstCol :: "Customer name" :: cols.filter (fun c => ¬(c = firstCol ∨ c = "Customer name")),
   t.rows⟩

/-- The chosen first column of the reordering (line 334). -/
def firstColOf (cols : List String) : String :=
  if "Contract ID" ∈ cols then "Contract ID"
  else ((cols.find? (fun c => c ≠ "Customer name")).getD (cols.headD ""))

theorem reorderCols_columns (t : Table) :
    (reorderCols t).columns =
      firstColOf t.columns :: "Customer name" ::
        t.columns.filter (fun c => ¬(c = firstColOf t.columns ∨ c = "Customer name")) := rfl

/-- C6: after the synthesis step, the reordered column list has "Customer
name" at position 2; position 1 is "Contract ID" when that column is present,
and otherwise the first column that is not "Customer name" (when one exists);
the remaining columns follow in their previous relative order; and when
"Customer name" was absent it is synthesized at the end with value "#NA" on
every record. -/
theorem C6_column_reorder (t : Table) :
    ((reorderCols (addCustomerIfMissing t)).columns.get? 1 = some "Customer name") ∧
    ("Contract ID" ∈ (addCustomerIfMissing t).columns →
      (reorderCols (addCustomerIfMissing t)).columns.get? 0 = some "Contract ID") ∧
    ("Contract ID" ∉ (addCustomerIfMissing t).columns →
      ∀ c, (addCustomerIfMissing t).columns.find? (fun c => c ≠ "Customer name") = some c →
        (reorderCols (addCustomerIfMissing t)).columns.get? 0 = some c) ∧
    (∀ f, (reorderCols (addCustomerIfMissing t)).columns.get? 0 = some f →
      (reorderCols (addCustomerIfMissing t)).columns.drop 2 =
        (addCustomerIfMissing t).columns.filter
          (fun c => ¬(c = f ∨ c = "Customer name"))) ∧
    ("Customer name" ∉ t.columns →
      (addCustomerIfMissing t).columns = t.columns ++ ["Customer name"] ∧
      ∀ r ∈ (addCustomerIfMissing t).rows, rget r "Customer name" = "#NA") := by
  refine ⟨rfl, ?_, ?_, ?_, ?_⟩
  · intro h
    rw [reorderCols_columns]
    have hfc : firstColOf (addCustomerIfMissing t).columns = "Contract ID" := by
      unfold firstColOf
      rw [if_pos h]
    rw [hfc]
    rfl
  · intro h c hc
    rw [reorderCols_columns]
    have hfc : firstColOf (addCustomerIfMissing t).columns = c := by
      unfold firstColOf
      rw [if_neg h, hc]
      rfl
    rw [hfc]
    rfl
  · intro f hf
    rw [reorderCols_columns] at hf
    simp only [List.get?_cons_zero] at hf
    injection hf with hfc
    rw [reorderCols_columns, hfc]
    rfl
  · intro h
    unfold addCustomerIfMissing
    rw [if_neg h]
    refine ⟨rfl, ?_⟩
    intro r hr
    obtain ⟨r₀, _, he⟩ := List.mem_map.mp hr
    rw [← he]
    exact rget_rset_self r₀ _ _

/-- A sample enriched table (no "Customer name" column) for the C6 witness. -/
def tSample : Table :=
  ⟨["Expiration", "Contract ID", "X"],
   [[("Expiration", "2026-01-01"), ("Contract ID", "c1"), ("X", "x")]]⟩

/-- Witness for C6 at a concrete table: "Contract ID" lands at position 1,
"Customer name" at position 2, the rest keep their order, and the synthesized
cells hold "#NA". -/
theorem C6_column_reorder_witness :
    (reorderCols (addCustomerIfMissing tSample)).columns
      = ["Contract ID", "Customer name", "Expiration", "X"] ∧
    rget ((reorderCols (addCustomerIfMissing tSample)).rows.head!) "Customer name" = "#NA" := by
  have h := C6_column_reorder tSample
  have h0 := h.2.1 (by decide)
  have h1 := h.1
  have hd := h.2.2.2.1 "Contract ID" h0
  have hval := h.2.2.2.2 (by decide)
  constructor
  · have hcols : (reorderCols (addCustomerIfMissing tSample)).columns.drop 2
        = ["Expiration", "X"] := by
      rw [hd]
      decide
    cases hc : (reorderCols (addCustomerIfMissing tSample)).columns with
    | nil => rw [hc] at h0; cases h0
    | cons a l =>
      cases l with
      | nil => rw [hc] at h1; cases h1
      | cons b l2 =>
        rw [hc] at h0 h1 hcols
        simp only [List.get?] at h0 h1
        injection h0 with h0'
        injection h1 with h1'
        simp only [List.drop] at hcols
        rw [h0', h1', hcols]
  · exact hval.2 _ (by decide)

/-- C10: when the license filter yields zero rows, the enrichment produces an
empty record list, the assembled frame has no columns, the synthesis step adds
"Customer name" as the only column, and the reordering then picks "Customer
name" again as the first column (the fallback head of the column list), so the
final column list is ["Customer name", "Customer name"] — containing "Customer
name" twice. -/
theorem C10_empty_filter_duplicate_column (t : Table) (cl : String → Option Row)
    (fl : String → Option String) (p : String → Option Int) (ft : Table)
    (hok : filter_license_rows t = .ok ft) (hempty : ft.rows = []) :
    (enrich cl fl ft.rows).items = [] ∧
    (reorderCols (addCustomerIfMissing
        (sortStep p (assembleTable (enrich cl fl ft.rows).items)))).columns
      = ["Customer name", "Customer name"] ∧
    (reorderCols (addCustomerIfMissing
        (sortStep p (assembleTable (enrich cl fl ft.rows).items)))).columns.count
        "Customer name" = 2 := by
  rw [hempty]
  exact ⟨rfl, rfl, rfl⟩

/-- A license table whose single row fails the filter. -/
def licNoPass : Table :=
  ⟨["Contract ID", "Product", "Tier", "BU"],
   [[("Contract ID", "c9"), ("Product", "GPR Live"), ("Tier", "Enterprise"), ("BU", "ACME")]]⟩

/-- Witness for C10 at a concrete run: all rows are filtered out and the final
column list is ["Customer name", "Customer name"]. -/
theorem C10_empty_filter_duplicate_column_witness :
    (reorderCols (addCustomerIfMissing
        (sortStep (fun _ => none) (assembleTable
          (enrich (fun _ => none) (fun _ => none)
            (⟨licNoPass.columns, []⟩ : Table).rows).items)))).columns
      = ["Customer name", "Customer name"] :=
  (C10_empty_filter_duplicate_column licNoPass (fun _ => none) (fun _ => none)
    (fun _ => none) ⟨licNoPass.columns, []⟩ rfl rfl).2.1

end ProjectRenewal
